import Mathlib

/-!
Verification development for the google-secrets loader package.

The development shallowly embeds the TypeScript sources:
  src/config.ts        (getConfigFromEnv, mergeConfig, defaultConfig)
  src/utils.ts         (withTimeout; the config-file data shape)
  src/SecretManager.ts (loadSecrets, updateConfigFromFile, prefix handling)
  src/index.ts         (programmatic loadSecrets entry point)
  src/load.ts          (loadSecretsSync: spawn timeout, sentinel split,
                        payload merge, double-load guard)

Platform primitives used by the code (the JavaScript string methods
String.prototype.split / trim / toLowerCase, the global parseInt, the
composite JSON.parse + Object.entries step, and the asynchronous race in
withTimeout) are modelled from their ECMAScript semantics; JSON.parse +
Object.entries is kept abstract as a parameter, since the code never
inspects the parser itself.  The process environment is modelled as an
association list of string pairs.
-/

/-- The process environment store: a string-to-string mapping modelled as an
association list (JavaScript `process.env`). -/
abbrev Env : Type := List (String × String)

/-- Reading `process.env[k]`: `none` models `undefined`. -/
def envGet (e : Env) (k : String) : Option String :=
  match e with
  | [] => none
  | (k1, v1) :: rest => if k1 = k then some v1 else envGet rest k

/-- Writing `process.env[k] = v`: replace the binding if present, else append. -/
def envSet (e : Env) (k v : String) : Env :=
  match e with
  | [] => [(k, v)]
  | (k1, v1) :: rest => if k1 = k then (k, v) :: rest else (k1, v1) :: envSet rest k v

/-- JavaScript truthiness of an optional string: defined and non-empty. -/
def optStrTruthy : Option String → Bool
  | some s => !(s == "")
  | none => false

/-- Truthiness of `process.env[k]` (used by guards like
`if (process.env.GOOGLE_SECRETS_OVERRIDE_EXISTING)`). -/
def envTruthy (e : Env) (k : String) : Bool :=
  optStrTruthy (envGet e k)

/-- Whitespace recognized by JavaScript string trimming (restricted to the
code points that occur in this development; the full ECMAScript set also has
several Unicode space characters). -/
def jsIsWhitespace (c : Char) : Bool :=
  c = ' ' || c = '\t' || c = '\n' || c = '\r' || c = '\x0b' || c = '\x0c'

/-- ECMAScript `String.prototype.trim` on a character list. -/
def jsTrimChars (cs : List Char) : List Char :=
  ((cs.dropWhile jsIsWhitespace).reverse.dropWhile jsIsWhitespace).reverse

/-- ECMAScript `String.prototype.trim`. -/
def jsTrimStr (s : String) : String :=
  String.mk (jsTrimChars s.toList)

/-- ECMAScript `String.prototype.toLowerCase` (character-wise lowering). -/
def jsToLower (s : String) : String :=
  String.mk (s.toList.map Char.toLower)

/-- Maximal leading decimal-digit run, as a natural number (`none` when the
run is empty, which is how `parseInt` produces `NaN`). -/
def parseDigits (cs : List Char) : Option Nat :=
  let ds := cs.takeWhile (fun c => c.isDigit)
  if ds = [] then none
  else some (ds.foldl (fun a c => a * 10 + (c.toNat - 48)) 0)

/-- ECMAScript `parseInt(s, 10)`: skip leading whitespace, read an optional
sign, then the maximal run of decimal digits; `none` models `NaN`.  Trailing
garbage (including a fractional part) is ignored. -/
def jsParseInt10 (s : String) : Option Int :=
  match s.toList.dropWhile jsIsWhitespace with
  | '-' :: rest => (parseDigits rest).map (fun n => -(n : Int))
  | '+' :: rest => (parseDigits rest).map (fun n => (n : Int))
  | cs => (parseDigits cs).map (fun n => (n : Int))

/-- Boolean prefix test on character lists (substring matching primitive for
the ECMAScript `String.prototype.split` model). -/
def listIsPrefix : List Char → List Char → Bool
  | [], _ => true
  | _ :: _, [] => false
  | a :: as, b :: bs => a = b && listIsPrefix as bs

/-- Split a character list at the first occurrence of `sep`: returns the
part strictly before the occurrence and everything strictly after it, or
`none` when `sep` does not occur. -/
def splitFirst (sep : List Char) : List Char → Option (List Char × List Char)
  | [] => none
  | c :: rest =>
    if listIsPrefix sep (c :: rest) then some ([], (c :: rest).drop sep.length)
    else
      match splitFirst sep rest with
      | none => none
      | some (a, b) => some (c :: a, b)

/-- Fuelled worker for the ECMAScript split model. -/
def jsSplitAux (sep : List Char) : Nat → List Char → List (List Char)
  | 0, s => [s]
  | fuel + 1, s =>
    match splitFirst sep s with
    | none => [s]
    | some (a, b) => a :: jsSplitAux sep fuel b

/-- ECMAScript `String.prototype.split` with a non-empty separator: split at
every occurrence.  (`s.length + 1` fuel always suffices because every
occurrence consumes at least one character.) -/
def jsSplit (sep s : List Char) : List (List Char) :=
  jsSplitAux sep (s.length + 1) s

/-- ECMAScript `String.prototype.split` on strings (non-empty separator). -/
def jsSplitStr (sep s : String) : List String :=
  (jsSplit sep.toList s.toList).map String.mk

deriving instance DecidableEq for Except

/-- JSON values, as far as the supervisor's merge step discriminates them
(it only ever asks `typeof value === 'string'`). -/
inductive Json where
  | str (s : String)
  | num (n : Int)
  | boolean (b : Bool)
  | null
  | arr (elems : List Json)
  | obj (fields : List (String × Json))

/-- The `typeof value === 'string'` discrimination: the payload value as a
string, when it is one. -/
def Json.strVal? : Json → Option String
  | .str s => some s
  | _ => none

/-- `GoogleSecretsConfig` from src/config.ts.  The source field `prefix` is
called `prefixVal` here (`prefix` is not usable as a plain Lean name). -/
structure GoogleSecretsConfig where
  secretKeys : Option (List String)
  secretKeysFile : Option String
  overrideExisting : Bool
  debug : Bool
  timeout : Option Int
  autoDiscoverConfig : Bool
  prefixVal : Option String
  deriving DecidableEq

/-- `defaultConfig` from src/config.ts. -/
def defaultConfig : GoogleSecretsConfig where
  secretKeys := none
  secretKeysFile := none
  overrideExisting := false
  debug := false
  timeout := some 5000
  autoDiscoverConfig := true
  prefixVal := none

/-- `getConfigFromEnv` from src/config.ts, a total function of the
environment snapshot. -/
def getConfigFromEnv (env : Env) : GoogleSecretsConfig where
  secretKeys :=
    match envGet env "GOOGLE_SECRETS_KEYS" with
    | some s =>
      if s = "" then defaultConfig.secretKeys
      else some (((jsSplitStr "," s).map jsTrimStr).filter (fun x => x ≠ ""))
    | none => defaultConfig.secretKeys
  secretKeysFile := envGet env "GOOGLE_SECRETS_KEYS_FILE"
  overrideExisting :=
    match envGet env "GOOGLE_SECRETS_OVERRIDE_EXISTING" with
    | some s => jsToLower s == "true"
    | none => defaultConfig.overrideExisting
  debug :=
    match envGet env "GOOGLE_SECRETS_DEBUG" with
    | some s => jsToLower s == "true"
    | none => defaultConfig.debug
  timeout :=
    match envGet env "GOOGLE_SECRETS_TIMEOUT" with
    | some s =>
      if s = "" then defaultConfig.timeout
      else
        match jsParseInt10 s with
        | some n => some n
        | none => defaultConfig.timeout
    | none => defaultConfig.timeout
  autoDiscoverConfig :=
    match envGet env "GOOGLE_SECRETS_AUTO_DISCOVER" with
    | some s => !(jsToLower s == "false")
    | none => defaultConfig.autoDiscoverConfig
  prefixVal := envGet env "GOOGLE_SECRETS_PREFIX"

/-- A `Partial<GoogleSecretsConfig>` options object: each field is `some`
exactly when the property is present on the object (so a present-but-
`undefined` Option-typed field is `some none`). -/
structure ConfigOverrides where
  secretKeys : Option (Option (List String)) := none
  secretKeysFile : Option (Option String) := none
  overrideExisting : Option Bool := none
  debug : Option Bool := none
  timeout : Option (Option Int) := none
  autoDiscoverConfig : Option Bool := none
  prefixVal : Option (Option String) := none

/-- `mergeConfig` from src/config.ts: the spread `{...envConfig, ...options}`
replaces exactly the fields present on `options`. -/
def mergeConfig (env : Env) (options : ConfigOverrides) : GoogleSecretsConfig :=
  let base := getConfigFromEnv env
  { secretKeys := options.secretKeys.getD base.secretKeys
    secretKeysFile := options.secretKeysFile.getD base.secretKeysFile
    overrideExisting := options.overrideExisting.getD base.overrideExisting
    debug := options.debug.getD base.debug
    timeout := options.timeout.getD base.timeout
    autoDiscoverConfig := options.autoDiscoverConfig.getD base.autoDiscoverConfig
    prefixVal := options.prefixVal.getD base.prefixVal }

/-- `ConfigFileData` from src/utils.ts (the two accepted JSON shapes for a
secrets/config file, degraded to all-optional fields).  The source field
`prefix` is called `filePrefix` here. -/
structure ConfigFileData where
  secrets : Option (List String)
  filePrefix : Option String
  overrideExisting : Option Bool
  deriving DecidableEq

/-- First half of `SecretManager.updateConfigFromFile`
(src/SecretManager.ts): the prefix backfill, guarded by the JavaScript
truthiness test `fileData.prefix && !this.config.prefix`. -/
def updatePrefixFromFile (cfg : GoogleSecretsConfig)
    (fileData : ConfigFileData) : GoogleSecretsConfig :=
  if optStrTruthy fileData.filePrefix && !(optStrTruthy cfg.prefixVal) then
    { cfg with prefixVal := fileData.filePrefix }
  else cfg

/-- Second half of `SecretManager.updateConfigFromFile`
(src/SecretManager.ts): the overrideExisting backfill, which probes the raw
environment variable `GOOGLE_SECRETS_OVERRIDE_EXISTING` and requires the
current value to be `false`. -/
def updateOverrideFromFile (cfg : GoogleSecretsConfig) (env : Env)
    (fileData : ConfigFileData) : GoogleSecretsConfig :=
  if fileData.overrideExisting.isSome
      && !(envTruthy env "GOOGLE_SECRETS_OVERRIDE_EXISTING")
      && !cfg.overrideExisting then
    { cfg with overrideExisting := fileData.overrideExisting.getD false }
  else cfg

/-- `SecretManager.updateConfigFromFile` from src/SecretManager.ts: its two
if-blocks run in sequence on `this.config`. -/
def updateConfigFromFile (cfg : GoogleSecretsConfig) (env : Env)
    (fileData : ConfigFileData) : GoogleSecretsConfig :=
  updateOverrideFromFile (updatePrefixFromFile cfg fileData) env fileData

/-- The final environment-variable name for a secret:
`this.config.prefix ? prefix + key : key` (truthiness: an empty-string
prefix behaves like no prefix). -/
def envKeyFor (cfg : GoogleSecretsConfig) (secretKey : String) : String :=
  match cfg.prefixVal with
  | some p => if p = "" then secretKey else p ++ secretKey
  | none => secretKey

/-- State threaded through the fetch loop of `SecretManager.loadSecrets`:
the live environment and the `loadedSecrets` result object. -/
structure LoadState where
  env : Env
  loaded : Env

/-- One iteration of the fetch loop in `SecretManager.loadSecrets`
(src/SecretManager.ts): a failed fetch is caught and leaves both stores
untouched; a successful fetch writes the environment only when
`overrideExisting` is true or the key is unset, and always records the value
in the result object.  `fetch` is the outcome of
`getSecret(projectId, secretKey)`. -/
def applyFetchedSecret (cfg : GoogleSecretsConfig)
    (fetch : String → Except String String) (st : LoadState)
    (secretKey : String) : LoadState :=
  match fetch secretKey with
  | Except.error _ => st
  | Except.ok v =>
    let name := envKeyFor cfg secretKey
    let env2 :=
      if cfg.overrideExisting || (envGet st.env name).isNone
      then envSet st.env name v else st.env
    LoadState.mk env2 (envSet st.loaded name v)

/-- `SecretManager.loadSecrets` from src/SecretManager.ts.  `projectId` is
the value resolved by `client.auth.getProjectId()` (the empty string models
a falsy result, which is fatal); `secretKeys` is the list resolved by
`getSecretKeys`; `fetch` is the per-secret outcome of `getSecret`.  The
concurrent `Promise.all` loop is modelled as a fold: every write targets the
key `envKeyFor cfg name`, and distinct names target distinct keys, so the
interleaving cannot change the outcome.  Returns the `loadedSecrets` result
object and the final environment. -/
def SecretManager.loadSecrets (cfg : GoogleSecretsConfig) (projectId : String)
    (fetch : String → Except String String) (secretKeys : List String)
    (env0 : Env) : Except String (Env × Env) :=
  if projectId = "" then Except.error "Project ID is required"
  else
    let st0 : LoadState :=
      LoadState.mk (envSet env0 "GOOGLE_PROJECT_ID" projectId)
        (envSet [] "GOOGLE_PROJECT_ID" projectId)
    if secretKeys.isEmpty then Except.ok (st0.loaded, st0.env)
    else
      let st := secretKeys.foldl (applyFetchedSecret cfg fetch) st0
      Except.ok (st.loaded, st.env)

/-- One invocation of `secretManager.loadSecrets()` in the programmatic
entry point, as the caller observes it: how long the promise takes to
settle (milliseconds) and its outcome. -/
structure AsyncRun where
  dur : Nat
  result : Except String Env

/-- `withTimeout` from src/utils.ts: `if (!ms) return promise`, else race
the promise against a timer of `ms` milliseconds.  The promise wins exactly
when it settles strictly before the timer fires (a non-positive `ms` arms an
immediately-firing timer). -/
def withTimeoutRace (run : AsyncRun) (ms : Int) (errorMessage : String) :
    Except String Env :=
  if ms = 0 then run.result
  else if (run.dur : Int) < ms then run.result
  else Except.error errorMessage

/-- The programmatic `loadSecrets` entry point from src/index.ts.  `runs n`
is the n-th invocation of `secretManager.loadSecrets()` made by this call.
Returns the settled outcome together with how many invocations were made.
When a timeout is configured the code awaits the timed invocation, logs it,
and then falls through to a second, untimed invocation whose result is the
one returned. -/
def indexLoadSecrets (cfg : GoogleSecretsConfig) (runs : Nat → AsyncRun) :
    Except String Env × Nat :=
  match cfg.timeout with
  | some t =>
    if t ≠ 0 then
      match withTimeoutRace (runs 0) t
          ("Secret loading timed out after " ++ toString t ++ "ms") with
      | Except.error e => (Except.error e, 1)
      | Except.ok _ => ((runs 1).result, 2)
    else ((runs 0).result, 1)
  | none => ((runs 0).result, 1)

/-- The `spawnSync` timeout chosen by the supervisor (src/load.ts line 35):
`config.timeout || 30000`. -/
def spawnSyncTimeout (cfg : GoogleSecretsConfig) : Int :=
  match cfg.timeout with
  | some t => if t ≠ 0 then t else 30000
  | none => 30000

/-- The parts of the captured child stdout after
`result.stdout.split(JSON_OUTPUT_MARKER)` (src/load.ts line 52). -/
def stdoutParts (marker stdout : String) : List String :=
  jsSplitStr marker stdout

/-- The two segments the supervisor shifts off the split parts: the log
segment (before the first marker occurrence) and the payload segment
(between the first and second occurrences); `none` when the marker is
absent, in which case the supervisor throws before touching anything. -/
def supervisorSegments (marker stdout : String) : Option (String × String) :=
  match stdoutParts marker stdout with
  | l :: p :: _ => some (l, p)
  | _ => none

/-- The child log lines the supervisor re-emits
(`logs.split('\n').map(trim).filter(Boolean)`, skipped entirely when the
log segment is the empty string). -/
def emittedLogs (logs : String) : List String :=
  if logs = "" then []
  else ((jsSplitStr "\n" logs).map jsTrimStr).filter (fun x => x ≠ "")

/-- The merge loop over `Object.entries(secrets)` (src/load.ts lines 62-66):
a pair is written into the environment only when its value is a string and
(`overrideExisting` or the key is unset). -/
def applyPayload (cfg : GoogleSecretsConfig) (entries : List (String × Json))
    (env : Env) : Env :=
  entries.foldl
    (fun e kv =>
      match Json.strVal? kv.2 with
      | some v =>
        if cfg.overrideExisting || (envGet e kv.1).isNone
        then envSet e kv.1 v else e
      | none => e)
    env

/-- Outcome of the supervisor's parse-and-merge step: the resulting
environment, the re-emitted child log lines, and the reported number of
loaded secrets (`none` when the catch branch ran, so the success log did
not fire and the guard flag was not set there). -/
structure SupervisorOutcome where
  env : Env
  emitted : List String
  reportedCount : Option Nat
  deriving DecidableEq

/-- The supervisor's handling of a zero-exit child's captured stdout
(src/load.ts lines 48-72).  `parseEntries` is the platform composite
`Object.entries(JSON.parse ·)`, kept abstract: `none` models a thrown
exception (invalid JSON, or entries of `null`).  When the payload segment is
the empty string the `if (output)` guard skips the parse, so `secrets`
stays `{}`: nothing is merged but the `_GOOGLE_SECRETS_LOADED` guard flag is
still set and zero secrets are reported. -/
def loadSecretsSyncOnOutput (marker : String)
    (parseEntries : String → Option (List (String × Json)))
    (cfg : GoogleSecretsConfig) (env : Env) (stdout : String) :
    SupervisorOutcome :=
  match supervisorSegments marker stdout with
  | none => SupervisorOutcome.mk env [] none
  | some (logs, output) =>
    let emitted := emittedLogs logs
    if output = "" then
      SupervisorOutcome.mk (envSet env "_GOOGLE_SECRETS_LOADED" "1") emitted (some 0)
    else
      match parseEntries (jsTrimStr output) with
      | none => SupervisorOutcome.mk env emitted none
      | some entries =>
        SupervisorOutcome.mk
          (envSet (applyPayload cfg entries env) "_GOOGLE_SECRETS_LOADED" "1")
          emitted (some entries.length)

/-! ## Helper lemmas about the environment store -/

theorem envGet_envSet_self (e : Env) (k v : String) :
    envGet (envSet e k v) k = some v := by
  induction e with
  | nil => simp [envSet, envGet]
  | cons hd tl ih =>
    obtain ⟨k1, v1⟩ := hd
    by_cases h : k1 = k
    · simp [envSet, h, envGet]
    · simp [envSet, h, envGet, ih]

theorem envGet_envSet_ne (e : Env) (k k2 v : String) (h : k2 ≠ k) :
    envGet (envSet e k v) k2 = envGet e k2 := by
  have hne : k ≠ k2 := Ne.symm h
  induction e with
  | nil => simp [envSet, envGet, hne]
  | cons hd tl ih =>
    obtain ⟨k1, v1⟩ := hd
    by_cases h1 : k1 = k
    · subst h1
      simp [envSet, envGet, hne]
    · simp [envSet, h1, envGet, ih]

theorem envKeyFor_inj (cfg : GoogleSecretsConfig) (a b : String)
    (h : envKeyFor cfg a = envKeyFor cfg b) : a = b := by
  unfold envKeyFor at h
  cases hp : cfg.prefixVal with
  | none => simpa [hp] using h
  | some p =>
    by_cases hpe : p = ""
    · simpa [hp, hpe] using h
    · simp only [hp, if_neg hpe] at h
      have hd := congrArg String.data h
      simp only [String.data_append] at hd
      exact String.ext (List.append_cancel_left hd)

/-! ## Helper lemmas about the fetch loop of SecretManager.loadSecrets -/

theorem foldl_env_untouched (cfg : GoogleSecretsConfig)
    (fetch : String → Except String String) (names : List String) (k : String)
    (h : ∀ a ∈ names, envKeyFor cfg a = k → ∃ e, fetch a = Except.error e) :
    ∀ st : LoadState,
      envGet (names.foldl (applyFetchedSecret cfg fetch) st).env k = envGet st.env k := by
  induction names with
  | nil => intro st; rfl
  | cons a t ih =>
    intro st
    have ht : ∀ x ∈ t, envKeyFor cfg x = k → ∃ e, fetch x = Except.error e :=
      fun x hx => h x (List.mem_cons_of_mem _ hx)
    rw [List.foldl_cons, ih ht]
    cases hf : fetch a with
    | error e => simp [applyFetchedSecret, hf]
    | ok v =>
      have hk : envKeyFor cfg a ≠ k := by
        intro hkk
        obtain ⟨e, he⟩ := h a (List.mem_cons_self a t) hkk
        rw [hf] at he
        cases he
      by_cases hc : (cfg.overrideExisting || (envGet st.env (envKeyFor cfg a)).isNone) = true
      · simp [applyFetchedSecret, hf, hc, envGet_envSet_ne _ _ _ _ (Ne.symm hk)]
      · simp [applyFetchedSecret, hf, hc]

theorem foldl_loaded_untouched (cfg : GoogleSecretsConfig)
    (fetch : String → Except String String) (names : List String) (k : String)
    (h : ∀ a ∈ names, envKeyFor cfg a = k → ∃ e, fetch a = Except.error e) :
    ∀ st : LoadState,
      envGet (names.foldl (applyFetchedSecret cfg fetch) st).loaded k = envGet st.loaded k := by
  induction names with
  | nil => intro st; rfl
  | cons a t ih =>
    intro st
    have ht : ∀ x ∈ t, envKeyFor cfg x = k → ∃ e, fetch x = Except.error e :=
      fun x hx => h x (List.mem_cons_of_mem _ hx)
    rw [List.foldl_cons, ih ht]
    cases hf : fetch a with
    | error e => simp [applyFetchedSecret, hf]
    | ok v =>
      have hk : envKeyFor cfg a ≠ k := by
        intro hkk
        obtain ⟨e, he⟩ := h a (List.mem_cons_self a t) hkk
        rw [hf] at he
        cases he
      simp [applyFetchedSecret, hf, envGet_envSet_ne _ _ _ _ (Ne.symm hk)]

theorem foldl_loaded_stable (cfg : GoogleSecretsConfig)
    (fetch : String → Except String String) (names : List String) (k : String)
    (v : String)
    (h : ∀ x ∈ names, envKeyFor cfg x = k → fetch x = Except.ok v) :
    ∀ st : LoadState, envGet st.loaded k = some v →
      envGet (names.foldl (applyFetchedSecret cfg fetch) st).loaded k = some v := by
  induction names with
  | nil => intro st h0; exact h0
  | cons a t ih =>
    intro st h0
    have ht : ∀ x ∈ t, envKeyFor cfg x = k → fetch x = Except.ok v :=
      fun x hx => h x (List.mem_cons_of_mem _ hx)
    rw [List.foldl_cons]
    refine ih ht _ ?_
    cases hf : fetch a with
    | error e => simpa [applyFetchedSecret, hf] using h0
    | ok w =>
      by_cases hk : envKeyFor cfg a = k
      · have hw : Except.ok (ε := String) w = Except.ok v := by
          rw [← hf, h a (List.mem_cons_self a t) hk]
        cases hw
        simp [applyFetchedSecret, hf, hk, envGet_envSet_self]
      · simpa [applyFetchedSecret, hf, envGet_envSet_ne _ _ _ _ (Ne.symm hk)] using h0

theorem foldl_env_noOverride (cfg : GoogleSecretsConfig)
    (fetch : String → Except String String) (names : List String) (k : String)
    (w : String) (hov : cfg.overrideExisting = false) :
    ∀ st : LoadState, envGet st.env k = some w →
      envGet (names.foldl (applyFetchedSecret cfg fetch) st).env k = some w := by
  induction names with
  | nil => intro st h0; exact h0
  | cons a t ih =>
    intro st h0
    rw [List.foldl_cons]
    refine ih _ ?_
    cases hf : fetch a with
    | error e => simpa [applyFetchedSecret, hf] using h0
    | ok v =>
      by_cases hk : envKeyFor cfg a = k
      · simp [applyFetchedSecret, hf, hov, hk, h0]
      · by_cases hc : envGet st.env (envKeyFor cfg a) = none
        · simpa [applyFetchedSecret, hf, hov, hc,
            envGet_envSet_ne _ _ _ _ (Ne.symm hk)] using h0
        · simpa [applyFetchedSecret, hf, hov, hc] using h0

theorem foldl_loaded_isSome (cfg : GoogleSecretsConfig)
    (fetch : String → Except String String) (names : List String) (k : String) :
    ∀ st : LoadState, (envGet st.loaded k).isSome →
      (envGet (names.foldl (applyFetchedSecret cfg fetch) st).loaded k).isSome := by
  induction names with
  | nil => intro st h0; exact h0
  | cons a t ih =>
    intro st h0
    rw [List.foldl_cons]
    refine ih _ ?_
    cases hf : fetch a with
    | error e => simpa [applyFetchedSecret, hf] using h0
    | ok v =>
      by_cases hk : envKeyFor cfg a = k
      · simp [applyFetchedSecret, hf, hk, envGet_envSet_self]
      · simpa [applyFetchedSecret, hf, envGet_envSet_ne _ _ _ _ (Ne.symm hk)]
          using h0

theorem foldl_loaded_written (cfg : GoogleSecretsConfig)
    (fetch : String → Except String String) (names : List String) (a : String)
    (v : String) (hv : fetch a = Except.ok v) (ha : a ∈ names) :
    ∀ st : LoadState,
      envGet (names.foldl (applyFetchedSecret cfg fetch) st).loaded
        (envKeyFor cfg a) = some v := by
  induction names with
  | nil => cases ha
  | cons x t ih =>
    intro st
    rw [List.foldl_cons]
    by_cases hat : a ∈ t
    · exact ih hat _
    · have hax : a = x := by
        rcases List.mem_cons.mp ha with h | h
        · exact h
        · exact absurd h hat
      subst hax
      refine foldl_loaded_stable cfg fetch t (envKeyFor cfg a) v ?_ _ ?_
      · intro y hy hk
        have hya : y = a := envKeyFor_inj cfg y a hk
        subst hya
        exact absurd hy hat
      · simp [applyFetchedSecret, hv, envGet_envSet_self]

/-! ## Helper lemmas about the split model -/

theorem listIsPrefix_exists (sep : List Char) :
    ∀ s : List Char, listIsPrefix sep s = true → ∃ t, s = sep ++ t := by
  induction sep with
  | nil => intro s _; exact ⟨s, rfl⟩
  | cons a as ih =>
    intro s hs
    cases s with
    | nil => cases hs
    | cons b bs =>
      have hab : a = b ∧ listIsPrefix as bs = true := by
        simpa [listIsPrefix, Bool.and_eq_true] using hs
      obtain ⟨t, ht⟩ := ih bs hab.2
      exact ⟨t, by simp [hab.1, ht]⟩

theorem splitFirst_append (sep : List Char) :
    ∀ s a b : List Char, splitFirst sep s = some (a, b) → s = a ++ sep ++ b := by
  intro s
  induction s with
  | nil => intro a b h; cases h
  | cons c rest ih =>
    intro a b h
    by_cases hp : listIsPrefix sep (c :: rest) = true
    · obtain ⟨t, ht⟩ := listIsPrefix_exists sep _ hp
      rw [splitFirst, if_pos hp] at h
      have ha : a = [] ∧ b = (c :: rest).drop sep.length := by
        cases h; exact ⟨rfl, rfl⟩
      have hdrop : (c :: rest).drop sep.length = t := by
        rw [ht]; exact List.drop_left sep t
      rw [ha.1, ha.2, hdrop, ht]; rfl
    · rw [splitFirst, if_neg hp] at h
      cases hsf : splitFirst sep rest with
      | none => rw [hsf] at h; cases h
      | some ab =>
        obtain ⟨a1, b1⟩ := ab
        rw [hsf] at h
        have hab : a = c :: a1 ∧ b = b1 := by cases h; exact ⟨rfl, rfl⟩
        rw [hab.1, hab.2]
        have := ih a1 b1 hsf
        simp [this]

theorem splitFirst_length (sep s a b : List Char)
    (h : splitFirst sep s = some (a, b)) :
    s.length = a.length + sep.length + b.length := by
  rw [splitFirst_append sep s a b h]
  simp [List.length_append]
  omega

theorem sep_length_pos (sep : List Char) (hsep : sep ≠ []) : 0 < sep.length := by
  cases sep with
  | nil => exact absurd rfl hsep
  | cons a as => simp

theorem jsSplitAux_fuel (sep : List Char) (hsep : sep ≠ []) :
    ∀ fuel1 fuel2 : Nat, ∀ s : List Char, s.length < fuel1 → s.length < fuel2 →
      jsSplitAux sep fuel1 s = jsSplitAux sep fuel2 s := by
  intro fuel1
  induction fuel1 with
  | zero => intro fuel2 s h1 _; exact absurd h1 (Nat.not_lt_zero _)
  | succ f1 ih =>
    intro fuel2 s h1 h2
    cases fuel2 with
    | zero => exact absurd h2 (Nat.not_lt_zero _)
    | succ f2 =>
      cases hsf : splitFirst sep s with
      | none => simp [jsSplitAux, hsf]
      | some ab =>
        obtain ⟨a, b⟩ := ab
        have hlen := splitFirst_length sep s a b hsf
        have hb : b.length < s.length := by
          have := sep_length_pos sep hsep
          omega
        simp only [jsSplitAux, hsf]
        rw [ih f2 b (by omega) (by omega)]

theorem jsSplit_eq_cons (sep s a b : List Char) (hsep : sep ≠ [])
    (h : splitFirst sep s = some (a, b)) :
    jsSplit sep s = a :: jsSplit sep b := by
  have hlen := splitFirst_length sep s a b h
  have hb : b.length < s.length := by
    have := sep_length_pos sep hsep
    omega
  unfold jsSplit
  simp only [jsSplitAux, h]
  rw [jsSplitAux_fuel sep hsep s.length (b.length + 1) b (by omega) (by omega)]
  cases hsb : splitFirst sep b with
  | none => simp [jsSplitAux, hsb]
  | some ab =>
    obtain ⟨a1, b1⟩ := ab
    simp [jsSplitAux, hsb]

theorem jsSplit_eq_single (sep s : List Char) (h : splitFirst sep s = none) :
    jsSplit sep s = [s] := by
  unfold jsSplit
  rw [jsSplitAux, h]

theorem jsSplit_ne_nil (sep s : List Char) : jsSplit sep s ≠ [] := by
  unfold jsSplit jsSplitAux
  cases splitFirst sep s with
  | none => simp
  | some ab => simp

/-! ## Claim theorems -/

/-- C1 (code bug): the spec says the programmatic `loadSecrets` wraps the
full resolve+fetch sequence in the configured timeout and returns the
timeout-bounded result.  The code instead awaits the timed invocation,
discards its value, and returns the result of a second, untimed invocation
of `secretManager.loadSecrets()`.  Evaluated here at the compiled-in default
configuration (timeout 5000 ms): the first invocation settles after 10 ms
with mapping `p1`, well within the timeout, yet the call returns the second
invocation's mapping `p2` and performs 2 invocations. -/
theorem indexLoadSecrets_returns_second_untimed_run :
    indexLoadSecrets defaultConfig
        (fun n => if n = 0
          then AsyncRun.mk 10 (Except.ok [("GOOGLE_PROJECT_ID", "p1")])
          else AsyncRun.mk 10 (Except.ok [("GOOGLE_PROJECT_ID", "p2")]))
      = (Except.ok [("GOOGLE_PROJECT_ID", "p2")], 2) ∧
    withTimeoutRace (AsyncRun.mk 10 (Except.ok [("GOOGLE_PROJECT_ID", "p1")]))
        5000 ("Secret loading timed out after " ++ toString (5000 : Int) ++ "ms")
      = Except.ok [("GOOGLE_PROJECT_ID", "p1")] ∧
    ([("GOOGLE_PROJECT_ID", "p2")] : Env) ≠ [("GOOGLE_PROJECT_ID", "p1")] := by
  decide

/-- C2 counterexample: with no timeout configured in the environment, the
resolved configuration carries the compiled-in default 5000, so the
supervisor passes 5000 ms to `spawnSync`, not the claimed 30000 ms. -/
theorem spawnTimeout_unconfigured_is_5000 :
    spawnSyncTimeout (getConfigFromEnv []) = 5000 ∧ (5000 : Int) ≠ 30000 := by
  decide

/-- C2 (amended): when `GOOGLE_SECRETS_TIMEOUT` is absent the supervisor
blocks with the config default of 5000 ms; the 30000 ms fallback of
`config.timeout || 30000` applies only when the resolved timeout is falsy,
i.e. when the variable parses to 0. -/
theorem spawnTimeout_characterization :
    (∀ env : Env, envGet env "GOOGLE_SECRETS_TIMEOUT" = none →
      spawnSyncTimeout (getConfigFromEnv env) = 5000) ∧
    (∀ env : Env, ∀ s : String, envGet env "GOOGLE_SECRETS_TIMEOUT" = some s →
      s ≠ "" → jsParseInt10 s = some 0 →
      spawnSyncTimeout (getConfigFromEnv env) = 30000) := by
  constructor
  · intro env h
    simp [spawnSyncTimeout, getConfigFromEnv, h, defaultConfig]
  · intro env s h hne hp
    simp [spawnSyncTimeout, getConfigFromEnv, h, hne, hp]

/-- Witness for the amended C2 theorem at concrete environments. -/
theorem spawnTimeout_characterization_witness :
    spawnSyncTimeout (getConfigFromEnv []) = 5000 ∧
    spawnSyncTimeout (getConfigFromEnv [("GOOGLE_SECRETS_TIMEOUT", "0")]) = 30000 :=
  ⟨spawnTimeout_characterization.1 [] (by decide),
   spawnTimeout_characterization.2 [("GOOGLE_SECRETS_TIMEOUT", "0")] "0"
     (by decide) (by decide) (by decide)⟩

/-- C9 counterexample: the claim says an absent or non-integer timeout value
keeps the default 5000, but `parseInt("3.7", 10)` yields the leading integer
3, so the non-integer value "3.7" sets the timeout to 3. -/
theorem timeout_env_fractional_value_parses :
    (getConfigFromEnv [("GOOGLE_SECRETS_TIMEOUT", "3.7")]).timeout = some 3 ∧
    some (3 : Int) ≠ some (5000 : Int) := by
  decide

/-- C9 (amended): config resolution is total by construction; overrideExisting
is true exactly when the override variable lowercases to "true"; the
auto-discover flag is false exactly when that variable lowercases to "false";
the timeout keeps the default 5000 when the variable is absent, empty, or has
no parsable leading integer, and otherwise is set to the parsed leading
integer (so values with trailing garbage or a fractional part do parse); a
truthy secret-name variable is comma-split, trimmed, and purged of empties. -/
theorem getConfigFromEnv_characterization (env : Env) :
    ((getConfigFromEnv env).overrideExisting = true ↔
      ∃ s, envGet env "GOOGLE_SECRETS_OVERRIDE_EXISTING" = some s ∧
        jsToLower s = "true") ∧
    ((getConfigFromEnv env).autoDiscoverConfig = false ↔
      ∃ s, envGet env "GOOGLE_SECRETS_AUTO_DISCOVER" = some s ∧
        jsToLower s = "false") ∧
    ((envGet env "GOOGLE_SECRETS_TIMEOUT" = none ∨
      envGet env "GOOGLE_SECRETS_TIMEOUT" = some "" ∨
      (∃ s, envGet env "GOOGLE_SECRETS_TIMEOUT" = some s ∧
        jsParseInt10 s = none)) →
      (getConfigFromEnv env).timeout = some 5000) ∧
    (∀ s n, envGet env "GOOGLE_SECRETS_TIMEOUT" = some s → s ≠ "" →
      jsParseInt10 s = some n → (getConfigFromEnv env).timeout = some n) ∧
    (∀ s, envGet env "GOOGLE_SECRETS_KEYS" = some s → s ≠ "" →
      (getConfigFromEnv env).secretKeys
        = some (((jsSplitStr "," s).map jsTrimStr).filter (fun x => x ≠ ""))) := by
  refine ⟨?_, ?_, ?_, ?_, ?_⟩
  · cases h : envGet env "GOOGLE_SECRETS_OVERRIDE_EXISTING" with
    | none => simp [getConfigFromEnv, h, defaultConfig]
    | some s => simp [getConfigFromEnv, h]
  · cases h : envGet env "GOOGLE_SECRETS_AUTO_DISCOVER" with
    | none => simp [getConfigFromEnv, h, defaultConfig]
    | some s => simp [getConfigFromEnv, h]
  · rintro (h | h | ⟨s, h, hp⟩)
    · simp [getConfigFromEnv, h, defaultConfig]
    · simp [getConfigFromEnv, h, defaultConfig]
    · by_cases hs : s = ""
      · simp [getConfigFromEnv, h, hs, defaultConfig]
      · simp [getConfigFromEnv, h, hs, hp, defaultConfig]
  · intro s n h hne hp
    simp [getConfigFromEnv, h, hne, hp]
  · intro s h hne
    simp [getConfigFromEnv, h, hne]

/-- Witness for the amended C9 theorem at a concrete environment. -/
theorem getConfigFromEnv_characterization_witness :
    (getConfigFromEnv [("GOOGLE_SECRETS_OVERRIDE_EXISTING", "TRUE"),
        ("GOOGLE_SECRETS_TIMEOUT", "abc"),
        ("GOOGLE_SECRETS_KEYS", " A ,,B ")]).overrideExisting = true ∧
    (getConfigFromEnv [("GOOGLE_SECRETS_OVERRIDE_EXISTING", "TRUE"),
        ("GOOGLE_SECRETS_TIMEOUT", "abc"),
        ("GOOGLE_SECRETS_KEYS", " A ,,B ")]).timeout = some 5000 ∧
    (getConfigFromEnv [("GOOGLE_SECRETS_OVERRIDE_EXISTING", "TRUE"),
        ("GOOGLE_SECRETS_TIMEOUT", "abc"),
        ("GOOGLE_SECRETS_KEYS", " A ,,B ")]).secretKeys = some ["A", "B"] := by
  have h := getConfigFromEnv_characterization
    [("GOOGLE_SECRETS_OVERRIDE_EXISTING", "TRUE"),
     ("GOOGLE_SECRETS_TIMEOUT", "abc"),
     ("GOOGLE_SECRETS_KEYS", " A ,,B ")]
  refine ⟨?_, ?_, ?_⟩
  · exact h.1.mpr ⟨"TRUE", by decide, by decide⟩
  · exact h.2.2.1 (Or.inr (Or.inr ⟨"abc", by decide, by decide⟩))
  · rw [h.2.2.2.2 " A ,,B " (by decide) (by decide)]
    decide

/-- C3 counterexample: `split` cuts at every occurrence of the sentinel, and
the supervisor parses only the part between the first and second occurrence.
On a stdout in which the sentinel occurs twice, the claimed payload
("everything after the first occurrence", here recovered by `splitFirst`) is
"payloadA##tail", but the supervisor hands only "payloadA" to the JSON
parser. -/
theorem supervisor_split_drops_after_second_marker :
    supervisorSegments "##" "log\n##payloadA##tail" = some ("log\n", "payloadA") ∧
    splitFirst "##".toList "log\n##payloadA##tail".toList
      = some ("log\n".toList, "payloadA##tail".toList) ∧
    ("payloadA" : String) ≠ "payloadA##tail" := by
  decide

/-- C3 (amended): when the sentinel occurs in the captured stdout, the text
before the first occurrence is the log segment whose trimmed non-empty lines
the supervisor re-emits, and the parsed payload is the first part of
splitting the text after the first occurrence again at the sentinel — i.e.
the segment between the first and second occurrences.  Only when the
sentinel occurs exactly once does this coincide with the claim's "entire
trailing segment". -/
theorem supervisor_split_characterization (marker stdout : String)
    (l t : List Char) (hm : marker.toList ≠ [])
    (h : splitFirst marker.toList stdout.toList = some (l, t)) :
    stdout.toList = l ++ marker.toList ++ t ∧
    (∃ p rest, jsSplit marker.toList t = p :: rest ∧
      supervisorSegments marker stdout = some (String.mk l, String.mk p) ∧
      ∀ parseEntries cfg env,
        (loadSecretsSyncOnOutput marker parseEntries cfg env stdout).emitted
          = emittedLogs (String.mk l)) ∧
    (splitFirst marker.toList t = none →
      supervisorSegments marker stdout = some (String.mk l, String.mk t)) := by
  have hsplit : jsSplit marker.toList stdout.toList = l :: jsSplit marker.toList t :=
    jsSplit_eq_cons marker.toList stdout.toList l t hm h
  refine ⟨splitFirst_append marker.toList stdout.toList l t h, ?_, ?_⟩
  · cases hjt : jsSplit marker.toList t with
    | nil => exact absurd hjt (jsSplit_ne_nil marker.toList t)
    | cons p rest =>
      have hdata : jsSplit marker.data stdout.data = l :: p :: rest := by
        have h3 := hsplit
        rw [hjt] at h3
        exact h3
      have hseg : supervisorSegments marker stdout
          = some (String.mk l, String.mk p) := by
        simp [supervisorSegments, stdoutParts, jsSplitStr, hdata]
      refine ⟨p, rest, rfl, hseg, ?_⟩
      intro parseEntries cfg env
      simp only [loadSecretsSyncOnOutput, hseg]
      by_cases hp0 : String.mk p = ""
      · simp [hp0]
      · simp only [if_neg hp0]
        cases parseEntries (jsTrimStr (String.mk p)) <;> simp
  · intro h2
    have hjt : jsSplit marker.toList t = [t] :=
      jsSplit_eq_single marker.toList t h2
    have hdata : jsSplit marker.data stdout.data = [l, t] := by
      have h3 := hsplit
      rw [hjt] at h3
      exact h3
    simp [supervisorSegments, stdoutParts, jsSplitStr, hdata]

/-- Witness for the amended C3 theorem at a concrete single-occurrence
stdout. -/
theorem supervisor_split_characterization_witness :
    "ab##cd".toList = "ab".toList ++ "##".toList ++ "cd".toList ∧
    supervisorSegments "##" "ab##cd"
      = some (String.mk "ab".toList, String.mk "cd".toList) := by
  have h := supervisor_split_characterization "##" "ab##cd"
    "ab".toList "cd".toList (by decide) (by decide)
  exact ⟨h.1, h.2.2 (by decide)⟩

/-- C5 counterexample: the child stdout ends exactly at the sentinel, so the
payload segment is the empty string — which is not valid JSON (the
instantiated parser, like `JSON.parse`, fails on every string, in particular
the empty one).  The claim says the guard flag is then not set, but the code
skips the parse via `if (output)`, merges nothing, and still sets
`_GOOGLE_SECRETS_LOADED`. -/
theorem supervisor_empty_segment_sets_guard :
    supervisorSegments "##" "x\n##" = some ("x\n", "") ∧
    (loadSecretsSyncOnOutput "##" (fun _ => none) defaultConfig [] "x\n##").env
      = [("_GOOGLE_SECRETS_LOADED", "1")] ∧
    (loadSecretsSyncOnOutput "##" (fun _ => none) defaultConfig [] "x\n##").reportedCount
      = some 0 ∧
    envGet [] "_GOOGLE_SECRETS_LOADED" = none := by
  decide

/-- C5 (amended): when the sentinel is absent the supervisor throws before
any write, leaving the environment exactly as it was (no partial writes, no
guard flag, no success log); when the payload segment is non-empty and fails
to parse, likewise; when the payload segment is the empty string the parse
is skipped, no secret key is written, but the guard flag is set and zero
loaded secrets are reported. -/
theorem supervisor_malformed_output_frame (marker : String)
    (parseEntries : String → Option (List (String × Json)))
    (cfg : GoogleSecretsConfig) (env : Env) (stdout : String) :
    (supervisorSegments marker stdout = none →
      loadSecretsSyncOnOutput marker parseEntries cfg env stdout
        = SupervisorOutcome.mk env [] none) ∧
    (∀ l out, supervisorSegments marker stdout = some (l, out) → out ≠ "" →
      parseEntries (jsTrimStr out) = none →
      loadSecretsSyncOnOutput marker parseEntries cfg env stdout
        = SupervisorOutcome.mk env (emittedLogs l) none) ∧
    (∀ l, supervisorSegments marker stdout = some (l, "") →
      loadSecretsSyncOnOutput marker parseEntries cfg env stdout
        = SupervisorOutcome.mk (envSet env "_GOOGLE_SECRETS_LOADED" "1")
            (emittedLogs l) (some 0)) := by
  refine ⟨?_, ?_, ?_⟩
  · intro h
    simp [loadSecretsSyncOnOutput, h]
  · intro l out h hne hp
    simp [loadSecretsSyncOnOutput, h, hne, hp]
  · intro l h
    simp [loadSecretsSyncOnOutput, h]

/-- Witness for the amended C5 theorem at concrete inputs: a stdout without
the sentinel (first branch) and a stdout whose non-empty payload segment
fails to parse (second branch). -/
theorem supervisor_malformed_output_frame_witness :
    loadSecretsSyncOnOutput "##" (fun _ => none) defaultConfig
        [("K", "v")] "no marker here"
      = SupervisorOutcome.mk [("K", "v")] [] none ∧
    loadSecretsSyncOnOutput "##" (fun _ => none) defaultConfig
        [("K", "v")] "log\n##garbage"
      = SupervisorOutcome.mk [("K", "v")] (emittedLogs "log\n") none := by
  constructor
  · exact (supervisor_malformed_output_frame "##" (fun _ => none) defaultConfig
      [("K", "v")] "no marker here").1 (by decide)
  · exact (supervisor_malformed_output_frame "##" (fun _ => none) defaultConfig
      [("K", "v")] "log\n##garbage").2.1 "log\n" "garbage" (by decide)
      (by decide) rfl

/-- C10: in the supervisor's merge of the parsed payload, a key is written
into the environment only when its JSON value is a string — an entry whose
value is not a string never writes its key, even with `overrideExisting`
true — yet every entry (string-valued or not) counts toward the reported
number of loaded secrets. -/
theorem payload_merge_string_values_only :
    (∀ (cfg : GoogleSecretsConfig) (env : Env)
        (entries : List (String × Json)) (k : String),
      (∀ j, (k, j) ∈ entries → Json.strVal? j = none) →
      envGet (applyPayload cfg entries env) k = envGet env k) ∧
    (∀ (marker : String)
        (parseEntries : String → Option (List (String × Json)))
        (cfg : GoogleSecretsConfig) (env : Env) (stdout : String)
        (l out : String) (entries : List (String × Json)),
      supervisorSegments marker stdout = some (l, out) → out ≠ "" →
      parseEntries (jsTrimStr out) = some entries →
      (loadSecretsSyncOnOutput marker parseEntries cfg env stdout).reportedCount
        = some entries.length) := by
  constructor
  · intro cfg env entries k
    induction entries generalizing env with
    | nil => intro _; rfl
    | cons kv rest ih =>
      intro h
      obtain ⟨k1, j1⟩ := kv
      have hrest : ∀ j, (k, j) ∈ rest → Json.strVal? j = none :=
        fun j hj => h j (List.mem_cons_of_mem _ hj)
      have hstep : applyPayload cfg ((k1, j1) :: rest) env
          = applyPayload cfg rest
              (match Json.strVal? j1 with
               | some v =>
                 if cfg.overrideExisting || (envGet env k1).isNone
                 then envSet env k1 v else env
               | none => env) := rfl
      rw [hstep]
      cases hj1 : Json.strVal? j1 with
      | none =>
        simp only [hj1]
        exact ih env hrest
      | some v =>
        have hk1 : k1 ≠ k := by
          intro hk
          subst hk
          have h2 := h j1 (List.mem_cons_self _ _)
          rw [hj1] at h2
          cases h2
        simp only [hj1]
        by_cases hc : (cfg.overrideExisting || (envGet env k1).isNone) = true
        · rw [if_pos hc, ih (envSet env k1 v) hrest]
          exact envGet_envSet_ne env k1 k v (Ne.symm hk1)
        · rw [if_neg hc]
          exact ih env hrest
  · intro marker parseEntries cfg env stdout l out entries h hne hp
    simp [loadSecretsSyncOnOutput, h, hne, hp]

/-- Witness for C10 at concrete inputs: a payload whose only entry under key
"A" holds the number 4 leaves the pre-set environment entry "A" untouched
even with overrideExisting true, and the reported count still counts it. -/
theorem payload_merge_string_values_only_witness :
    envGet (applyPayload ({ defaultConfig with overrideExisting := true }
        : GoogleSecretsConfig) [("A", Json.num 4)] [("A", "old")]) "A"
      = envGet [("A", "old")] "A" ∧
    (loadSecretsSyncOnOutput "##"
        (fun _ => some [("A", Json.num 4)]) defaultConfig [] "##x").reportedCount
      = some 1 := by
  constructor
  · refine payload_merge_string_values_only.1 _ _ _ "A" ?_
    intro j hj
    have hj2 : ((("A" : String), j) : String × Json) = ("A", Json.num 4) := by
      simpa using hj
    have hj3 : j = Json.num 4 := congrArg Prod.snd hj2
    rw [hj3]
    rfl
  · exact payload_merge_string_values_only.2 "##" _ defaultConfig [] "##x"
      "" "x" [("A", Json.num 4)] (by decide) (by decide) rfl

/-- C4 counterexample: a prefix explicitly configured as the empty string
via programmatic options, and an overrideExisting explicitly supplied as
`false` via options, are both replaced by the file's values — the truthiness
test `!this.config.prefix` does not distinguish an explicit empty string
from absent, and the overrideExisting guard only probes the raw environment
variable and the current `false` value. -/
theorem updateConfigFromFile_overwrites_explicit_fields :
    (mergeConfig [] { prefixVal := some (some ""), overrideExisting := some false }).prefixVal = some "" ∧
    (mergeConfig [] { prefixVal := some (some ""), overrideExisting := some false }).overrideExisting = false ∧
    (updateConfigFromFile
        (mergeConfig [] { prefixVal := some (some ""), overrideExisting := some false })
        [] (ConfigFileData.mk (some ["A"]) (some "APP_") (some true))).prefixVal
      = some "APP_" ∧
    (updateConfigFromFile
        (mergeConfig [] { prefixVal := some (some ""), overrideExisting := some false })
        [] (ConfigFileData.mk (some ["A"]) (some "APP_") (some true))).overrideExisting
      = true ∧
    (some "APP_" ≠ (some "" : Option String)) ∧ (true ≠ false) := by
  decide

/-- C4 (amended): the file's prefix is backfilled only when the configured
prefix is falsy — absent or the empty string — so a non-empty explicitly
configured prefix is never replaced, but an explicit empty-string prefix is;
the file's overrideExisting is applied only when the raw environment
variable `GOOGLE_SECRETS_OVERRIDE_EXISTING` is untruthy and the current
value is `false`, so a configured `true` (from options or environment) is
never replaced, but an options-supplied `false` is. -/
theorem updateConfigFromFile_characterization (cfg : GoogleSecretsConfig)
    (env : Env) (fileData : ConfigFileData) :
    (∀ p, cfg.prefixVal = some p → p ≠ "" →
      (updateConfigFromFile cfg env fileData).prefixVal = some p) ∧
    (∀ q, fileData.filePrefix = some q → q ≠ "" →
      (cfg.prefixVal = none ∨ cfg.prefixVal = some "") →
      (updateConfigFromFile cfg env fileData).prefixVal = some q) ∧
    (cfg.overrideExisting = true →
      (updateConfigFromFile cfg env fileData).overrideExisting = true) ∧
    (envTruthy env "GOOGLE_SECRETS_OVERRIDE_EXISTING" = true →
      (updateConfigFromFile cfg env fileData).overrideExisting
        = cfg.overrideExisting) ∧
    (∀ b, fileData.overrideExisting = some b →
      envTruthy env "GOOGLE_SECRETS_OVERRIDE_EXISTING" = false →
      cfg.overrideExisting = false →
      (updateConfigFromFile cfg env fileData).overrideExisting = b) := by
  have hov1 : (updatePrefixFromFile cfg fileData).overrideExisting
      = cfg.overrideExisting := by
    unfold updatePrefixFromFile
    split <;> rfl
  have hpre1 : (updatePrefixFromFile cfg fileData).prefixVal
      = (if optStrTruthy fileData.filePrefix && !(optStrTruthy cfg.prefixVal)
         then fileData.filePrefix else cfg.prefixVal) := by
    unfold updatePrefixFromFile
    split <;> rfl
  have hpre2 : ∀ c : GoogleSecretsConfig,
      (updateOverrideFromFile c env fileData).prefixVal = c.prefixVal := by
    intro c
    unfold updateOverrideFromFile
    split <;> rfl
  have hov2 : ∀ c : GoogleSecretsConfig,
      (updateOverrideFromFile c env fileData).overrideExisting
        = (if fileData.overrideExisting.isSome
              && !(envTruthy env "GOOGLE_SECRETS_OVERRIDE_EXISTING")
              && !c.overrideExisting
           then fileData.overrideExisting.getD false
           else c.overrideExisting) := by
    intro c
    unfold updateOverrideFromFile
    split <;> rfl
  have hpre : (updateConfigFromFile cfg env fileData).prefixVal
      = (if optStrTruthy fileData.filePrefix && !(optStrTruthy cfg.prefixVal)
         then fileData.filePrefix else cfg.prefixVal) := by
    unfold updateConfigFromFile
    rw [hpre2, hpre1]
  have hov : (updateConfigFromFile cfg env fileData).overrideExisting
      = (if fileData.overrideExisting.isSome
            && !(envTruthy env "GOOGLE_SECRETS_OVERRIDE_EXISTING")
            && !cfg.overrideExisting
         then fileData.overrideExisting.getD false
         else cfg.overrideExisting) := by
    unfold updateConfigFromFile
    rw [hov2, hov1]
  refine ⟨?_, ?_, ?_, ?_, ?_⟩
  · intro p hp hpne
    have htr : optStrTruthy cfg.prefixVal = true := by
      simp [optStrTruthy, hp, hpne]
    rw [hpre, htr]
    simp [hp]
  · intro q hq hqne hfalsy
    have h1 : optStrTruthy fileData.filePrefix = true := by
      simp [optStrTruthy, hq, hqne]
    have h2 : optStrTruthy cfg.prefixVal = false := by
      rcases hfalsy with h | h <;> simp [optStrTruthy, h]
    rw [hpre, h1, h2]
    simp [hq]
  · intro hovt
    rw [hov, hovt]
    simp
  · intro htr
    rw [hov, htr]
    simp
  · intro b hb htr hovf
    rw [hov, hb, htr, hovf]
    simp

/-- Witness for the amended C4 theorem at concrete inputs. -/
theorem updateConfigFromFile_characterization_witness :
    (updateConfigFromFile
        ({ defaultConfig with prefixVal := some "VITE_" } : GoogleSecretsConfig)
        [] (ConfigFileData.mk (some ["A"]) (some "APP_") none)).prefixVal
      = some "VITE_" ∧
    (updateConfigFromFile
        ({ defaultConfig with overrideExisting := true } : GoogleSecretsConfig)
        [] (ConfigFileData.mk (some ["A"]) none (some false))).overrideExisting
      = true :=
  ⟨(updateConfigFromFile_characterization
      ({ defaultConfig with prefixVal := some "VITE_" } : GoogleSecretsConfig)
      [] (ConfigFileData.mk (some ["A"]) (some "APP_") none)).1
      "VITE_" rfl (by decide),
   (updateConfigFromFile_characterization
      ({ defaultConfig with overrideExisting := true } : GoogleSecretsConfig)
      [] (ConfigFileData.mk (some ["A"]) none (some false))).2.2.1 rfl⟩

/-- C6: during the fetch over the resolved names, a failing fetch is caught:
its key is absent from the returned mapping and its environment entry keeps
its prior value, every sibling fetch is still applied to the mapping, and
the overall call succeeds.  The hypothesis that the failing secret's final
key is not `GOOGLE_PROJECT_ID` excludes the synthetic project-id entry,
which by the spec's own rule unconditionally occupies that key. -/
theorem fetch_failure_isolated (cfg : GoogleSecretsConfig)
    (projectId : String) (fetch : String → Except String String)
    (names : List String) (b errMsg : String) (env0 : Env)
    (hpid : projectId ≠ "") (hmem : b ∈ names)
    (hb : fetch b = Except.error errMsg)
    (hkey : envKeyFor cfg b ≠ "GOOGLE_PROJECT_ID") :
    ∃ loaded envF,
      SecretManager.loadSecrets cfg projectId fetch names env0
        = Except.ok (loaded, envF) ∧
      envGet loaded (envKeyFor cfg b) = none ∧
      envGet envF (envKeyFor cfg b) = envGet env0 (envKeyFor cfg b) ∧
      ∀ a v, a ∈ names → fetch a = Except.ok v →
        envGet loaded (envKeyFor cfg a) = some v := by
  have hne : names.isEmpty = false := by
    cases names with
    | nil => cases hmem
    | cons x t => rfl
  have herr : ∀ a ∈ names, envKeyFor cfg a = envKeyFor cfg b →
      ∃ e, fetch a = Except.error e := by
    intro a _ hk
    have hab : a = b := envKeyFor_inj cfg a b hk
    subst hab
    exact ⟨errMsg, hb⟩
  unfold SecretManager.loadSecrets
  rw [if_neg hpid]
  simp only [hne, Bool.false_eq_true, if_false]
  refine ⟨_, _, rfl, ?_, ?_, ?_⟩
  · rw [foldl_loaded_untouched cfg fetch names (envKeyFor cfg b) herr]
    rw [envGet_envSet_ne [] "GOOGLE_PROJECT_ID" (envKeyFor cfg b) projectId hkey]
    rfl
  · rw [foldl_env_untouched cfg fetch names (envKeyFor cfg b) herr]
    exact envGet_envSet_ne env0 "GOOGLE_PROJECT_ID" (envKeyFor cfg b) projectId hkey
  · intro a v ha hv
    exact foldl_loaded_written cfg fetch names a v hv ha _

/-- Witness for C6 at a concrete input: fetching "B" fails while "A"
succeeds. -/
theorem fetch_failure_isolated_witness :
    ∃ loaded envF,
      SecretManager.loadSecrets defaultConfig "proj"
          (fun k => if k = "B" then Except.error "boom" else Except.ok "valA")
          ["A", "B"] [] = Except.ok (loaded, envF) ∧
      envGet loaded (envKeyFor defaultConfig "B") = none ∧
      envGet envF (envKeyFor defaultConfig "B")
        = envGet [] (envKeyFor defaultConfig "B") ∧
      ∀ a v, a ∈ ["A", "B"] →
        (fun k => if k = "B" then Except.error "boom" else Except.ok "valA") a
          = Except.ok v →
        envGet loaded (envKeyFor defaultConfig a) = some v :=
  fetch_failure_isolated defaultConfig "proj"
    (fun k => if k = "B" then Except.error "boom" else Except.ok "valA")
    ["A", "B"] "B" "boom" [] (by decide) (by decide) (by decide) (by decide)

/-- C7: with `overrideExisting = false`, a pre-set environment entry at a
fetched secret's final key is never modified by the fetched value — the
final environment still maps the key to its prior value — while the returned
mapping reports the newly fetched value.  The synthetic `GOOGLE_PROJECT_ID`
key is excluded: the spec itself has that entry overwrite unconditionally. -/
theorem preserve_existing_env_key (cfg : GoogleSecretsConfig)
    (projectId : String) (fetch : String → Except String String)
    (names : List String) (n w v : String) (env0 : Env)
    (hpid : projectId ≠ "") (hov : cfg.overrideExisting = false)
    (hmem : n ∈ names) (hfetch : fetch n = Except.ok v)
    (hset : envGet env0 (envKeyFor cfg n) = some w)
    (hkey : envKeyFor cfg n ≠ "GOOGLE_PROJECT_ID") :
    ∃ loaded envF,
      SecretManager.loadSecrets cfg projectId fetch names env0
        = Except.ok (loaded, envF) ∧
      envGet envF (envKeyFor cfg n) = some w ∧
      envGet loaded (envKeyFor cfg n) = some v := by
  have hne : names.isEmpty = false := by
    cases names with
    | nil => cases hmem
    | cons x t => rfl
  unfold SecretManager.loadSecrets
  rw [if_neg hpid]
  simp only [hne, Bool.false_eq_true, if_false]
  refine ⟨_, _, rfl, ?_, ?_⟩
  · refine foldl_env_noOverride cfg fetch names (envKeyFor cfg n) w hov _ ?_
    rw [envGet_envSet_ne env0 "GOOGLE_PROJECT_ID" (envKeyFor cfg n) projectId hkey]
    exact hset
  · exact foldl_loaded_written cfg fetch names n v hfetch hmem _

/-- Witness for C7 at a concrete input: key "A" is pre-set to "old",
overrideExisting is false, and the fetch returns "new". -/
theorem preserve_existing_env_key_witness :
    ∃ loaded envF,
      SecretManager.loadSecrets defaultConfig "proj"
          (fun _ => Except.ok "new") ["A"] [("A", "old")]
        = Except.ok (loaded, envF) ∧
      envGet envF (envKeyFor defaultConfig "A") = some "old" ∧
      envGet loaded (envKeyFor defaultConfig "A") = some "new" :=
  preserve_existing_env_key defaultConfig "proj" (fun _ => Except.ok "new")
    ["A"] "A" "old" "new" [("A", "old")] (by decide) rfl (by decide) rfl
    (by decide) (by decide)

/-- C8 counterexample: a fetched secret whose final environment key is
itself `GOOGLE_PROJECT_ID` overwrites the synthetic entry afterwards, so a
successful result does not always map `GOOGLE_PROJECT_ID` to the resolved
project id: here the result and the environment map it to the fetched value
"hijack" instead of the resolved id "proj". -/
theorem project_id_entry_clobbered_by_fetched_secret :
    SecretManager.loadSecrets
        ({ defaultConfig with overrideExisting := true } : GoogleSecretsConfig)
        "proj" (fun _ => Except.ok "hijack") ["GOOGLE_PROJECT_ID"] []
      = Except.ok ([("GOOGLE_PROJECT_ID", "hijack")],
          [("GOOGLE_PROJECT_ID", "hijack")]) ∧
    ("hijack" : String) ≠ "proj" := by
  decide

/-- C8 (amended): every successful load writes the synthetic project-id
entry first — unprefixed, overwriting any prior environment value,
regardless of overrideExisting — and the returned mapping always carries a
`GOOGLE_PROJECT_ID` entry; when no resolved name's final key is itself
`GOOGLE_PROJECT_ID` (in particular whenever the name set is empty, in which
case the mapping holds only that entry), the mapping and the environment
still map it to the resolved id at the end; a fetched secret whose final key
is `GOOGLE_PROJECT_ID` may overwrite it afterwards. -/
theorem project_id_entry_characterization (cfg : GoogleSecretsConfig)
    (projectId : String) (fetch : String → Except String String)
    (names : List String) (env0 : Env) (hpid : projectId ≠ "") :
    ∃ loaded envF,
      SecretManager.loadSecrets cfg projectId fetch names env0
        = Except.ok (loaded, envF) ∧
      (envGet loaded "GOOGLE_PROJECT_ID").isSome ∧
      ((∀ a ∈ names, envKeyFor cfg a ≠ "GOOGLE_PROJECT_ID") →
        envGet loaded "GOOGLE_PROJECT_ID" = some projectId ∧
        envGet envF "GOOGLE_PROJECT_ID" = some projectId) ∧
      (names = [] → loaded = [("GOOGLE_PROJECT_ID", projectId)]) := by
  unfold SecretManager.loadSecrets
  rw [if_neg hpid]
  cases names with
  | nil =>
    refine ⟨_, _, rfl, ?_, ?_, ?_⟩
    · rw [envGet_envSet_self]
      rfl
    · intro _
      exact ⟨envGet_envSet_self [] "GOOGLE_PROJECT_ID" projectId,
        envGet_envSet_self env0 "GOOGLE_PROJECT_ID" projectId⟩
    · intro _
      rfl
  | cons x t =>
    refine ⟨_, _, rfl, ?_, ?_, ?_⟩
    · refine foldl_loaded_isSome cfg fetch (x :: t) "GOOGLE_PROJECT_ID" _ ?_
      rw [envGet_envSet_self]
      rfl
    · intro h
      have herr : ∀ a ∈ x :: t, envKeyFor cfg a = "GOOGLE_PROJECT_ID" →
          ∃ e, fetch a = Except.error e := by
        intro a ha hk
        exact absurd hk (h a ha)
      constructor
      · rw [foldl_loaded_untouched cfg fetch (x :: t) "GOOGLE_PROJECT_ID" herr]
        exact envGet_envSet_self [] "GOOGLE_PROJECT_ID" projectId
      · rw [foldl_env_untouched cfg fetch (x :: t) "GOOGLE_PROJECT_ID" herr]
        exact envGet_envSet_self env0 "GOOGLE_PROJECT_ID" projectId
    · intro h
      cases h

/-- Witness for the amended C8 theorem at a concrete input with an empty
resolved name set. -/
theorem project_id_entry_characterization_witness :
    ∃ loaded envF,
      SecretManager.loadSecrets defaultConfig "proj"
          (fun _ => Except.error "unused") [] [("GOOGLE_PROJECT_ID", "stale")]
        = Except.ok (loaded, envF) ∧
      (envGet loaded "GOOGLE_PROJECT_ID").isSome ∧
      ((∀ a ∈ ([] : List String), envKeyFor defaultConfig a ≠ "GOOGLE_PROJECT_ID") →
        envGet loaded "GOOGLE_PROJECT_ID" = some "proj" ∧
        envGet envF "GOOGLE_PROJECT_ID" = some "proj") ∧
      (([] : List String) = [] → loaded = [("GOOGLE_PROJECT_ID", "proj")]) :=
  project_id_entry_characterization defaultConfig "proj"
    (fun _ => Except.error "unused") [] [("GOOGLE_PROJECT_ID", "stale")]
    (by decide)
